import Mathlib

/-!
A verification development for `videoke/main.py`, a pygame/ffpyplayer
karaoke kiosk: the file-extension normaliser, the music and background
random selectors with their repeat-avoidance memory, the `VideoPlayer`
per-tick playback state machine, and the Enter-key branch of the main
loop.

Modelling conventions:
* Python strings are Lean `String`s; `str.lower` is modelled by
  `Char.toLower`, which agrees with Python on ASCII.
* `time.time()` values and frame delays are rationals.
* `random.choice(seq)` draws `seq[oracle i % seq.length]` from an
  arbitrary index oracle, a fresh index per loop iteration; the
  `while True` retry loops get explicit fuel, with a `diverged`
  outcome when it runs out (the concrete loop would still be spinning,
  producing no observable result).
* A directory listing is an `Option (List String)`: `none` models a
  path for which `os.path.isdir` is false, or on which a bare
  `os.listdir` raises `FileNotFoundError`.
* External pygame/ffpyplayer calls are abstracted: a decoded frame
  carries a `good` flag saying whether the
  `frombuffer`/`resize`/`centerblit` pipeline of the `try` block
  succeeds on it, and blits and `log.error` calls are reported as
  explicit outputs.
-/

/-- Segment of `l` strictly after the last occurrence of `sep`, when
`sep` occurs at all.  Helper behind `os.path.splitext` and basename
extraction. -/
def afterLast (sep : Char) : List Char → Option (List Char)
  | [] => none
  | c :: cs =>
    match afterLast sep cs with
    | some e => some e
    | none => if c = sep then some cs else none

/-- Basename of a POSIX path: the part after the last slash. -/
def basenameChars (l : List Char) : List Char :=
  match afterLast '/' l with
  | some b => b
  | none => l

/-- Test for the extension separator character. -/
def isDot (c : Char) : Bool :=
  c == '.'

/-- Characters of the `os.path.splitext` extension without its dot:
the part of the basename after its last dot, provided some character
of the basename before that dot is not itself a dot (as in CPython,
POSIX hidden files such as `.profile` have no extension). -/
def extCore (l : List Char) : List Char :=
  match afterLast '.' ((basenameChars l).dropWhile isDot) with
  | some e => e
  | none => []

/-- `extension` from main.py: the normalized filename extension,
lowercase and without the leading dot.  Can be empty. -/
def extension (filepath : String) : String :=
  String.mk ((extCore filepath.data).map Char.toLower)

/-- Test whether a path begins with the POSIX separator. -/
def startsWithSlash (l : List Char) : Bool :=
  match l with
  | '/' :: _ => true
  | _ => false

/-- Test whether a path ends with the POSIX separator. -/
def endsWithSlash (l : List Char) : Bool :=
  match l.getLast? with
  | some '/' => true
  | _ => false

/-- `os.path.join` for one extra component, POSIX rules. -/
def os_path_join (a b : String) : String :=
  if startsWithSlash b.data then b
  else if a.data.isEmpty || endsWithSlash a.data then a ++ b
  else a ++ "/" ++ b

/-- The music-candidate test used by `random_music`:
`extension(f) == 'mp4'`. -/
def isMusicFile (f : String) : Bool :=
  extension f == "mp4"

/-- One `dict` assignment `d[k] = v` on an insertion-ordered
association list, with Python dict semantics: overwriting a present
key keeps its original position, a new key goes to the end. -/
def dictInsert (d : List (String × String)) (k v : String) : List (String × String) :=
  if d.any (fun kv => kv.1 == k) then
    d.map (fun kv => if kv.1 == k then (k, v) else kv)
  else
    d ++ [(k, v)]

/-- The three candidate music directories scanned by `random_music`,
in scan order — `DATADIR/music`, `USERDATA/music`, `OPTIONS.MUSICDIR` —
each with its optional listing (`none` when `os.path.isdir` is false,
in which case the scan contributes nothing). -/
structure MusicDirs where
  dataDir : String
  dataLs : Option (List String)
  userDir : String
  userLs : Option (List String)
  musicDir : String
  musicLs : Option (List String)
  deriving DecidableEq

/-- Entries contributed by one directory scan in `random_music`:
filename keys mapped to joined full paths, keeping `mp4` files only. -/
def dirMusicEntries (mdir : String) (ls : Option (List String)) : List (String × String) :=
  ((ls.getD []).filter isMusicFile).map (fun f => (f, os_path_join mdir f))

/-- The combined `music` dict built by `random_music`: the three
directories in order, later entries overriding earlier ones on
filename collision. -/
def buildMusicCatalog (fs : MusicDirs) : List (String × String) :=
  (dirMusicEntries fs.dataDir fs.dataLs ++
    dirMusicEntries fs.userDir fs.userLs ++
    dirMusicEntries fs.musicDir fs.musicLs).foldl
    (fun d kv => dictInsert d kv.1 kv.2) []

/-- Dictionary lookup `music[video]`; the key is always present where
the source uses it, so a default covers the impossible miss. -/
def lookupD (d : List (String × String)) (k : String) : String :=
  match d.find? (fun kv => kv.1 == k) with
  | some kv => kv.2
  | none => ""

/-- The `while True: v = random.choice(seq); if v != bad: break` retry
loop shared by both selectors.  `bad` is the remembered previous
value the drawn element is compared against; as in Python, a `none`
memory never equals a string, so any draw is accepted then.  One
oracle index is consumed per iteration; `none` means the fuel ran
out. -/
def chooseLoop (seq : List String) (bad : Option String) (oracle : Nat → Nat) :
    Nat → Nat → Option String
  | _, 0 => none
  | i, fuel + 1 =>
    let v := seq.getD (oracle i % seq.length) ""
    if bad = some v then chooseLoop seq bad oracle (i + 1) fuel else some v

/-- Outcome of one `random_music()` call: the `FileNotFoundError`
raise, loop fuel exhaustion, or a chosen full path. -/
inductive MusicResult
  | notFound
  | diverged
  | picked (path : String)
  deriving DecidableEq

/-- `random_music` from main.py.  Inputs: the scanned directories, the
process-wide `_last_music` memory, the randomness oracle and loop
fuel.  Output: the outcome together with the new `_last_music` (the
source returns `_last_music` itself right after assigning it).  Note
that the retry loop compares the drawn dict key — a bare filename —
against `_last_music`, which holds a full path. -/
def random_music (fs : MusicDirs) (last : Option String) (oracle : Nat → Nat) (fuel : Nat) :
    MusicResult × Option String :=
  match buildMusicCatalog fs with
  | [] => (.notFound, last)
  | kv :: rest =>
    if rest = [] then
      let p := lookupD (kv :: rest) kv.1
      (.picked p, some p)
    else
      match chooseLoop ((kv :: rest).map Prod.fst) last oracle 0 fuel with
      | none => (.diverged, last)
      | some video =>
        let p := lookupD (kv :: rest) video
        (.picked p, some p)

/-- Outcome of one `random_background(surface)` call.  `raised` models
the `FileNotFoundError` escaping from the unguarded `os.listdir` on a
missing directory; `noop` is the early `return` on an empty catalog
(no fill, no blit); `drew bg` means the surface was filled with the
background color and `bg` was loaded, scaled and center-blitted onto
it. -/
inductive BGOut
  | raised
  | noop
  | diverged
  | drew (bg : String)
  deriving DecidableEq

/-- The background catalog: full paths of the files in the
backgrounds directory carrying a recognized image extension. -/
def bgCandidates (bgdir : String) (files : List String) : List String :=
  (files.filter (fun f => ["bmp", "jpg", "jpeg", "png"].contains (extension f))).map
    (fun f => os_path_join bgdir f)

/-- `random_background` from main.py.  Output: the outcome together
with the new `_current_background` memory, updated only after a
successful draw. -/
def random_background (bgdir : String) (ls : Option (List String)) (cur : Option String)
    (oracle : Nat → Nat) (fuel : Nat) : BGOut × Option String :=
  match ls with
  | none => (.raised, cur)
  | some files =>
    match bgCandidates bgdir files with
    | [] => (.noop, cur)
    | [bg] => (.drew bg, some bg)
    | bg0 :: bg1 :: rest =>
      match chooseLoop (bg0 :: bg1 :: rest) cur oracle 0 fuel with
      | none => (.diverged, cur)
      | some bg => (.drew bg, some bg)

/-- A decoded frame as handed over by `MediaPlayer.get_frame()` in
`frame[0]`; `good` abstracts whether the
`frombuffer`/`resize`/`centerblit` pipeline in the `try` block
succeeds on this frame. -/
structure Frame where
  id : Nat
  good : Bool
  deriving DecidableEq

/-- Result of `self.player.get_frame()` for one tick: the `'eof'`
sentinel, `frame is None` (nothing decoded yet), or a frame paired
with its delay `val`. -/
inductive GetFrame
  | eof
  | noFrame
  | frame (img : Frame) (delay : ℚ)
  deriving DecidableEq

/-- The mutable state of a `VideoPlayer` instance.  The decoder
handle is abstracted to the path it was opened on and the surface to
a token. -/
structure VideoPlayer where
  player : Option String
  surface : Option Nat
  image : Option Frame
  wait : ℚ
  finished : Bool
  deriving DecidableEq

/-- `VideoPlayer.__init__(path, surface)`. -/
def VideoPlayer.init (path : String) (surf : Nat) : VideoPlayer :=
  { player := some path, surface := some surf, image := none, wait := 0, finished := false }

/-- The `has_finished` property. -/
def VideoPlayer.has_finished (vp : VideoPlayer) : Bool :=
  vp.finished

/-- `VideoPlayer.stop`: close and drop the decoder when present, drop
the surface and any pending image, reset the deadline, mark finished.
The resulting state does not depend on the previous one. -/
def VideoPlayer.stop (_vp : VideoPlayer) : VideoPlayer :=
  { player := none, surface := none, image := none, wait := 0, finished := true }

/-- Observable result of one `VideoPlayer.play` call: the new state,
the return value (`True` becomes `true`, the bare `return` / `None`
paths become `false`), which frame — if any — was blitted to the
surface this tick, and whether `log.error` ran. -/
structure PlayOut where
  vp : VideoPlayer
  ret : Bool
  blitted : Option Frame
  logged : Bool
  deriving DecidableEq

/-- The display step ending `play`: the `try` block converts, scales
and center-blits the pending image, which is then cleared and `True`
returned; on failure the exception is caught, logged, and the player
stopped. -/
def VideoPlayer.display (vp : VideoPlayer) (img : Frame) : PlayOut :=
  if img.good then
    { vp := { vp with image := none }, ret := true, blitted := some img, logged := false }
  else
    { vp := vp.stop, ret := false, blitted := none, logged := true }

/-- `VideoPlayer.play`, one tick of the playback state machine: do
nothing without a decoder; with a pending image wait for its deadline
and then display it; otherwise fetch a frame — stopping on `'eof'`,
idling on `None`, scheduling `val > 0` frames for `now + val` and
displaying `val <= 0` frames on the spot. -/
def VideoPlayer.play (vp : VideoPlayer) (now : ℚ) (gf : GetFrame) : PlayOut :=
  match vp.player with
  | none => { vp := vp, ret := false, blitted := none, logged := false }
  | some _ =>
    match vp.image with
    | some img =>
      if now < vp.wait then { vp := vp, ret := false, blitted := none, logged := false }
      else vp.display img
    | none =>
      match gf with
      | .eof => { vp := vp.stop, ret := false, blitted := none, logged := false }
      | .noFrame => { vp := vp, ret := false, blitted := none, logged := false }
      | .frame img d =>
        if 0 < d then
          { vp := { vp with image := some img, wait := now + d },
            ret := false, blitted := none, logged := false }
        else
          VideoPlayer.display { vp with image := some img } img

/-- The Enter-key branch of `main` when no player is active: try
`random_music()`; on success a `VideoPlayer` is created for the chosen
video, modelled here by its path; on `FileNotFoundError` the error is
logged and the loop stays idle.  Output: the new player, the new
`_last_music`, and whether `log.error` ran. -/
def enterIdle (fs : MusicDirs) (last : Option String) (oracle : Nat → Nat) (fuel : Nat) :
    Option String × Option String × Bool :=
  match random_music fs last oracle fuel with
  | (.notFound, l) => (none, l, true)
  | (.diverged, l) => (none, l, false)
  | (.picked p, l) => (some p, l, false)

/-- Reading of music recognition taken from the specification text,
for comparison with the code: the filename ends with `.mp4`, matched
case-insensitively as a suffix. -/
def specSuffixMp4 (f : String) : Bool :=
  List.isSuffixOf ['.', 'm', 'p', '4'] (f.data.map Char.toLower)

/-- Example layout: only the built-in data directory exists, holding
two music files. -/
def fsTwo : MusicDirs :=
  { dataDir := "m", dataLs := some ["a.mp4", "b.mp4"],
    userDir := "u", userLs := none,
    musicDir := "c", musicLs := none }

/-- Example layout: a single music file in the data directory. -/
def fsOne : MusicDirs :=
  { dataDir := "m", dataLs := some ["a.mp4"],
    userDir := "u", userLs := none,
    musicDir := "c", musicLs := none }

/-- Example layout: none of the candidate directories exists. -/
def fsNone : MusicDirs :=
  { dataDir := "m", dataLs := none,
    userDir := "u", userLs := none,
    musicDir := "c", musicLs := none }

/-- A frame whose conversion/render pipeline succeeds. -/
def goodFrame : Frame :=
  { id := 0, good := true }

/-- A frame whose conversion/render pipeline fails. -/
def badFrame : Frame :=
  { id := 1, good := false }

/-- A session holding a frame scheduled for deadline 5. -/
def vpWaiting : VideoPlayer :=
  { player := some "v.mp4", surface := some 0, image := some goodFrame,
    wait := 5, finished := false }

/-- Claim C1 (amended): on a tick where the decoder hands over a frame
with delay `d` to an image-free session: if `d > 0` the frame is
stored, the deadline becomes `now + d`, and nothing is displayed this
tick; if `d ≤ 0` and the frame converts successfully, it is blitted
and reported displayed on the same tick; and, on any tick, a stored
frame is never blitted while the current time is strictly before the
deadline. -/
theorem c1_frame_pacing (vp : VideoPlayer) (now d : ℚ) (f : Frame)
    (hp : vp.player.isSome = true) (hi : vp.image = none) :
    (0 < d →
      vp.play now (.frame f d) =
        { vp := { vp with image := some f, wait := now + d },
          ret := false, blitted := none, logged := false }) ∧
    (d ≤ 0 → f.good = true →
      (vp.play now (.frame f d)).blitted = some f ∧
        (vp.play now (.frame f d)).ret = true) ∧
    (∀ (vp₂ : VideoPlayer) (now₂ : ℚ) (gf : GetFrame) (g : Frame),
      vp₂.player.isSome = true → vp₂.image = some g → now₂ < vp₂.wait →
      vp₂.play now₂ gf = { vp := vp₂, ret := false, blitted := none, logged := false }) := by
  obtain ⟨pth, hpth⟩ := Option.isSome_iff_exists.mp hp
  refine ⟨?_, ?_, ?_⟩
  · intro hd
    simp [VideoPlayer.play, hpth, hi, hd]
  · intro hd hg
    have hnd : ¬ 0 < d := not_lt.mpr hd
    simp [VideoPlayer.play, VideoPlayer.display, hpth, hi, hnd, hg]
  · intro vp₂ now₂ gf g hp₂ hi₂ ht₂
    obtain ⟨pth₂, hpth₂⟩ := Option.isSome_iff_exists.mp hp₂
    simp [VideoPlayer.play, hpth₂, hi₂, ht₂]

/-- Claim C1, witness: a delay-3 frame fetched at time 2 is stored
with deadline 5 and not displayed; a delay-0 good frame is displayed
on the same tick; and a session holding a frame with deadline 9 does
nothing at time 2. -/
theorem c1_witness :
    VideoPlayer.play (VideoPlayer.init "v.mp4" 0) 2 (.frame goodFrame 3) =
      { vp := { VideoPlayer.init "v.mp4" 0 with image := some goodFrame, wait := 2 + 3 },
        ret := false, blitted := none, logged := false } ∧
    (VideoPlayer.play (VideoPlayer.init "v.mp4" 0) 2 (.frame goodFrame 0)).ret = true ∧
    VideoPlayer.play { VideoPlayer.init "v.mp4" 0 with image := some goodFrame, wait := 9 }
        2 .noFrame =
      { vp := { VideoPlayer.init "v.mp4" 0 with image := some goodFrame, wait := 9 },
        ret := false, blitted := none, logged := false } := by
  refine ⟨?_, ?_, ?_⟩
  · exact (c1_frame_pacing (VideoPlayer.init "v.mp4" 0) 2 3 goodFrame rfl rfl).1 (by norm_num)
  · exact ((c1_frame_pacing (VideoPlayer.init "v.mp4" 0) 2 0 goodFrame rfl rfl).2.1
      (le_refl 0) rfl).2
  · exact (c1_frame_pacing (VideoPlayer.init "v.mp4" 0) 2 0 goodFrame rfl rfl).2.2
      _ 2 .noFrame goodFrame rfl rfl (by norm_num)

/-- Claim C1, counterexample to the clause as stated: a frame with
delay 0 whose conversion fails is not displayed on that tick — the
error path runs and the session finishes — so with `d ≤ 0` the frame
is not always displayed on the same tick. -/
theorem c1_cex :
    (VideoPlayer.play (VideoPlayer.init "v.mp4" 0) 0 (.frame badFrame 0)).blitted = none ∧
    (VideoPlayer.play (VideoPlayer.init "v.mp4" 0) 0 (.frame badFrame 0)).ret = false ∧
    (VideoPlayer.play (VideoPlayer.init "v.mp4" 0) 0 (.frame badFrame 0)).vp.finished = true := by
  decide

/-- Claim C2: one `play` call returns `true` exactly when a frame was
blitted this tick; and whenever the internal error path runs (the
caught, logged conversion failure) the session ends up stopped — the
decoder and surface dropped and `finished` set — with the call
returning `false`.  The embedding is a total function: no exception
crosses the call boundary. -/
theorem c2_advance_contract (vp : VideoPlayer) (now : ℚ) (gf : GetFrame) :
    ((vp.play now gf).ret = true ↔ ∃ f, (vp.play now gf).blitted = some f) ∧
    ((vp.play now gf).logged = true →
      (vp.play now gf).vp.finished = true ∧ (vp.play now gf).vp.player = none ∧
        (vp.play now gf).vp.surface = none ∧ (vp.play now gf).ret = false) := by
  obtain ⟨pl, sf, im, w, fin⟩ := vp
  cases pl with
  | none => simp [VideoPlayer.play]
  | some pth =>
    cases im with
    | some img =>
      by_cases ht : now < w
      · simp [VideoPlayer.play, ht]
      · cases hg : img.good <;>
          simp [VideoPlayer.play, VideoPlayer.display, VideoPlayer.stop, ht, hg]
    | none =>
      cases gf with
      | eof => simp [VideoPlayer.play, VideoPlayer.stop]
      | noFrame => simp [VideoPlayer.play]
      | frame img d =>
        by_cases hd : 0 < d
        · simp [VideoPlayer.play, hd]
        · cases hg : img.good <;>
            simp [VideoPlayer.play, VideoPlayer.display, VideoPlayer.stop, hd, hg]

/-- Claim C2, witness: a failing frame conversion leaves a finished,
resource-free session and the call reports no frame displayed. -/
theorem c2_witness :
    (VideoPlayer.play (VideoPlayer.init "v.mp4" 0) 0 (.frame badFrame 0)).vp.finished = true ∧
    (VideoPlayer.play (VideoPlayer.init "v.mp4" 0) 0 (.frame badFrame 0)).ret = false := by
  have h := (c2_advance_contract (VideoPlayer.init "v.mp4" 0) 0 (.frame badFrame 0)).2 (by decide)
  exact ⟨h.1, h.2.2.2⟩

/-- Claim C3: `stop` drops the decoder and surface references, forces
`has_finished`, is idempotent, and afterwards any `play` call is a
no-op that changes nothing and returns `false`. -/
theorem c3_stop_contract (vp : VideoPlayer) (now : ℚ) (gf : GetFrame) :
    vp.stop.player = none ∧ vp.stop.surface = none ∧ vp.stop.has_finished = true ∧
    vp.stop.stop = vp.stop ∧
    vp.stop.play now gf = { vp := vp.stop, ret := false, blitted := none, logged := false } :=
  ⟨rfl, rfl, rfl, rfl, rfl⟩

/-- Claim C4 (amended): whenever `play` reports a frame displayed, the
stored frame is cleared and every other field — decoder handle,
surface, finished flag, and also the `wait` deadline, which the code
leaves untouched rather than resetting — is unchanged; the frame was
blitted and no error logged. -/
theorem c4_display_effect (vp : VideoPlayer) (now : ℚ) (gf : GetFrame)
    (h : (vp.play now gf).ret = true) :
    ∃ f, vp.play now gf =
      { vp := { vp with image := none }, ret := true, blitted := some f, logged := false } := by
  obtain ⟨pl, sf, im, w, fin⟩ := vp
  cases pl with
  | none => simp [VideoPlayer.play] at h
  | some pth =>
    cases im with
    | some img =>
      by_cases ht : now < w
      · simp [VideoPlayer.play, ht] at h
      · cases hg : img.good with
        | false => simp [VideoPlayer.play, VideoPlayer.display, ht, hg] at h
        | true =>
          refine ⟨img, ?_⟩
          simp [VideoPlayer.play, VideoPlayer.display, ht, hg]
    | none =>
      cases gf with
      | eof => simp [VideoPlayer.play] at h
      | noFrame => simp [VideoPlayer.play] at h
      | frame img d =>
        by_cases hd : 0 < d
        · simp [VideoPlayer.play, hd] at h
        · cases hg : img.good with
          | false => simp [VideoPlayer.play, VideoPlayer.display, hd, hg] at h
          | true =>
            refine ⟨img, ?_⟩
            simp [VideoPlayer.play, VideoPlayer.display, hd, hg]

/-- Claim C4, witness: a concrete successful display clears the frame
and leaves everything else as it was. -/
theorem c4_witness :
    ∃ f, VideoPlayer.play vpWaiting 10 .noFrame =
      { vp := { vpWaiting with image := none }, ret := true, blitted := some f,
        logged := false } :=
  c4_display_effect vpWaiting 10 .noFrame (by decide)

/-- Claim C4, counterexample to "the deadline is cleared": displaying
at time 10 a frame that had deadline 5 succeeds, yet `wait` still
holds 5 afterwards instead of its reset value 0. -/
theorem c4_cex :
    (VideoPlayer.play vpWaiting 10 .noFrame).ret = true ∧
    (VideoPlayer.play vpWaiting 10 .noFrame).vp.wait = 5 ∧ (5 : ℚ) ≠ 0 := by
  decide

/-- Claim C5, evaluation at the failing input: with catalog
`a.mp4` mapped to `m/a.mp4` and `b.mp4` mapped to `m/b.mp4`, a first
call (empty memory, random index 0) returns `m/a.mp4`; the immediately
following call, with memory `m/a.mp4` and again drawing index 0, once
more returns `m/a.mp4`.  The repeat-avoidance check compares the drawn
bare filename `a.mp4` against the remembered full path `m/a.mp4`,
never matches, and lets the immediate repeat through. -/
theorem c5_music_repeats :
    random_music fsTwo none (fun _ => 0) 5 = (.picked "m/a.mp4", some "m/a.mp4") ∧
    random_music fsTwo (some "m/a.mp4") (fun _ => 0) 5 =
      (.picked "m/a.mp4", some "m/a.mp4") := by
  decide

/-- Claim C6: with a singleton catalog both selectors return its
single entry, whatever the repeat-avoidance memory holds — even when
the memory already equals that entry. -/
theorem c6_singleton_catalog (fs : MusicDirs) (last : Option String) (o₁ : Nat → Nat)
    (n₁ : Nat) (f p : String) (hm : buildMusicCatalog fs = [(f, p)])
    (bgdir : String) (files : List String) (cur : Option String) (o₂ : Nat → Nat) (n₂ : Nat)
    (b : String) (hb : bgCandidates bgdir files = [b]) :
    random_music fs last o₁ n₁ = (.picked p, some p) ∧
    random_background bgdir (some files) cur o₂ n₂ = (.drew b, some b) := by
  constructor
  · unfold random_music
    rw [hm]
    simp [lookupD]
  · simp only [random_background]
    rw [hb]

/-- Claim C6, witness: singleton catalogs whose memory already equals
the single entry. -/
theorem c6_witness :
    random_music fsOne (some "m/a.mp4") (fun _ => 0) 3 = (.picked "m/a.mp4", some "m/a.mp4") ∧
    random_background "bg" (some ["x.png"]) (some "bg/x.png") (fun _ => 0) 3 =
      (.drew "bg/x.png", some "bg/x.png") :=
  c6_singleton_catalog fsOne (some "m/a.mp4") (fun _ => 0) 3 "a.mp4" "m/a.mp4" (by decide)
    "bg" ["x.png"] (some "bg/x.png") (fun _ => 0) 3 "bg/x.png" (by decide)

/-- Claim C7: `random_music` reports not-found precisely when the
combined catalog is empty, and in that case the idle Enter handler
logs the error and stays idle — no player is created and the
selection memory is untouched. -/
theorem c7_not_found (fs : MusicDirs) (last : Option String) (oracle : Nat → Nat)
    (fuel : Nat) :
    ((random_music fs last oracle fuel).1 = .notFound ↔ buildMusicCatalog fs = []) ∧
    (buildMusicCatalog fs = [] → enterIdle fs last oracle fuel = (none, last, true)) := by
  rcases hcat : buildMusicCatalog fs with _ | ⟨kv, rest⟩
  · have hr : random_music fs last oracle fuel = (.notFound, last) := by
      unfold random_music
      rw [hcat]
    refine ⟨by simp [hr], fun _ => ?_⟩
    unfold enterIdle
    rw [hr]
  · have hr : (random_music fs last oracle fuel).1 ≠ .notFound := by
      unfold random_music
      rw [hcat]
      by_cases h : rest = []
      · simp [h]
      · simp only [if_neg h]
        split <;> simp
    refine ⟨⟨fun hx => absurd hx hr, fun hx => ?_⟩, fun hx => ?_⟩ <;>
      exact List.noConfusion hx

/-- Claim C7, witness: with no directory present the catalog is empty,
the call reports not-found, and the Enter handler logs and idles. -/
theorem c7_witness :
    ((random_music fsNone none (fun _ => 0) 1).1 = .notFound ↔
      buildMusicCatalog fsNone = []) ∧
    enterIdle fsNone none (fun _ => 0) 1 = (none, none, true) :=
  ⟨(c7_not_found fsNone none (fun _ => 0) 1).1,
   (c7_not_found fsNone none (fun _ => 0) 1).2 (by decide)⟩

/-- Claim C8 (amended): when the backgrounds directory exists but
holds no recognized image file, `random_background` is a no-op — it
does not raise, it neither fills nor blits the surface, and the
memory is unchanged. -/
theorem c8_empty_noop (bgdir : String) (files : List String) (cur : Option String)
    (oracle : Nat → Nat) (fuel : Nat) (h : bgCandidates bgdir files = []) :
    random_background bgdir (some files) cur oracle fuel = (.noop, cur) := by
  simp only [random_background]
  rw [h]

/-- Claim C8, witness: an existing directory with no image files. -/
theorem c8_witness :
    random_background "backgrounds" (some ["notes.txt"]) (some "prev.png") (fun _ => 0) 1 =
      (.noop, some "prev.png") :=
  c8_empty_noop "backgrounds" ["notes.txt"] (some "prev.png") (fun _ => 0) 1 (by decide)

/-- Claim C8, counterexample to the missing-directory half: when the
backgrounds directory does not exist, the unguarded `os.listdir`
raises `FileNotFoundError` — the `raised` outcome — so the call is
not a silent no-op there. -/
theorem c8_cex :
    (random_background "backgrounds" none (some "prev.png") (fun _ => 0) 1).1 = BGOut.raised ∧
    BGOut.raised ≠ BGOut.noop := by
  decide

/-- A value returned by the retry loop is drawn from the sequence. -/
theorem chooseLoop_mem (seq : List String) (bad : Option String) (oracle : Nat → Nat)
    (hne : seq ≠ []) :
    ∀ fuel i v, chooseLoop seq bad oracle i fuel = some v → v ∈ seq := by
  intro fuel
  induction fuel with
  | zero => intro i v h; cases h
  | succ n ih =>
    intro i v h
    simp only [chooseLoop] at h
    by_cases hb : bad = some (seq.getD (oracle i % seq.length) "")
    · rw [if_pos hb] at h
      exact ih (i + 1) v h
    · rw [if_neg hb] at h
      obtain rfl : seq.getD (oracle i % seq.length) "" = v := by injection h
      have hlt : oracle i % seq.length < seq.length :=
        Nat.mod_lt _ (List.length_pos.mpr hne)
      rw [List.getD_eq_getElem _ _ hlt]
      exact List.getElem_mem hlt

/-- The dictionary lookup of a present key returns one of the stored
values. -/
theorem lookupD_mem (d : List (String × String)) (k : String)
    (hk : k ∈ d.map Prod.fst) :
    ∃ kv ∈ d, kv.2 = lookupD d k := by
  induction d with
  | nil => simp at hk
  | cons a as ih =>
    by_cases h : a.1 = k
    · refine ⟨a, List.mem_cons_self a as, ?_⟩
      simp [lookupD, List.find?, h]
    · have hk' : k ∈ as.map Prod.fst := by
        rcases List.mem_map.mp hk with ⟨x, hx, hxk⟩
        rcases List.mem_cons.mp hx with rfl | hx'
        · exact absurd hxk h
        · exact List.mem_map.mpr ⟨x, hx', hxk⟩
      obtain ⟨kv, hkv, hv⟩ := ih hk'
      refine ⟨kv, List.mem_cons_of_mem a hkv, ?_⟩
      rw [hv]
      have hbeq : (a.1 == k) = false := by
        exact beq_eq_false_iff_ne.mpr h
      simp [lookupD, List.find?, hbeq]

/-- Claim C10: whenever `random_music` succeeds, the `_last_music`
memory it leaves behind equals exactly the value it returned, and
that value is one of the catalog's values — a joined full path, not
the bare filename key. -/
theorem c10_memory_is_returned_path (fs : MusicDirs) (last : Option String)
    (oracle : Nat → Nat) (fuel : Nat) (p : String)
    (h : (random_music fs last oracle fuel).1 = .picked p) :
    (random_music fs last oracle fuel).2 = some p ∧
      ∃ kv ∈ buildMusicCatalog fs, kv.2 = p := by
  unfold random_music at h ⊢
  rcases hcat : buildMusicCatalog fs with _ | ⟨kv, rest⟩
  · rw [hcat] at h
    simp at h
  · rw [hcat] at h
    by_cases hr : rest = []
    · subst hr
      simp only [reduceIte] at h ⊢
      have hp : lookupD [kv] kv.1 = p := by simpa using h
      have hent : lookupD [kv] kv.1 = kv.2 := by simp [lookupD, List.find?]
      refine ⟨by simpa using hp, kv, by simp, ?_⟩
      rw [← hp, hent]
    · simp only [hr, reduceIte, List.map_cons] at h ⊢
      rcases hc : chooseLoop (kv.1 :: rest.map Prod.fst) last oracle 0 fuel with _ | video
      · rw [hc] at h
        simp at h
      · rw [hc] at h
        have hp : lookupD (kv :: rest) video = p := by simpa using h
        have hv : video ∈ (kv :: rest).map Prod.fst := by
          rw [List.map_cons]
          exact chooseLoop_mem (kv.1 :: rest.map Prod.fst) last oracle (by simp) fuel 0 video hc
        obtain ⟨kv', hkv', hval⟩ := lookupD_mem (kv :: rest) video hv
        exact ⟨by simpa using hp, kv', hkv', by rw [hval, hp]⟩

/-- Claim C10, witness at a concrete two-file catalog. -/
theorem c10_witness :
    (random_music fsTwo none (fun _ => 0) 5).2 = some "m/a.mp4" ∧
    ∃ kv ∈ buildMusicCatalog fsTwo, kv.2 = "m/a.mp4" :=
  c10_memory_is_returned_path fsTwo none (fun _ => 0) 5 "m/a.mp4" (by decide)

/-- `afterLast` finds nothing exactly when the separator is absent. -/
theorem afterLast_eq_none_iff (sep : Char) (l : List Char) :
    afterLast sep l = none ↔ sep ∉ l := by
  induction l with
  | nil => simp [afterLast]
  | cons c cs ih =>
    simp only [afterLast]
    rcases h : afterLast sep cs with _ | e
    · have hcs : sep ∉ cs := ih.mp h
      by_cases hc : c = sep
      · subst hc
        simp
      · have hcsym : ¬sep = c := fun hx => hc hx.symm
        simp [hc, hcs, hcsym]
    · have hmem : sep ∈ cs := by
        by_contra hn
        rw [ih.mpr hn] at h
        cases h
      simp [hmem]

/-- `afterLast` past an explicit final separator. -/
theorem afterLast_append (sep : Char) (u v : List Char) (hv : sep ∉ v) :
    afterLast sep (u ++ sep :: v) = some v := by
  induction u with
  | nil => simp [afterLast, (afterLast_eq_none_iff sep v).mpr hv]
  | cons c cs ih => simp [afterLast, ih]

/-- A successful `afterLast` decomposes its input around a final
separator occurrence. -/
theorem afterLast_some (sep : Char) :
    ∀ l v : List Char, afterLast sep l = some v → sep ∉ v ∧ ∃ u, l = u ++ sep :: v := by
  intro l
  induction l with
  | nil => intro v h; cases h
  | cons c cs ih =>
    intro v h
    simp only [afterLast] at h
    rcases hcs : afterLast sep cs with _ | e
    · rw [hcs] at h
      by_cases hc : c = sep
      · rw [if_pos hc] at h
        have hv : cs = v := by injection h
        subst hv
        exact ⟨(afterLast_eq_none_iff sep cs).mp hcs, [], by simp [hc]⟩
      · rw [if_neg hc] at h
        cases h
    · rw [hcs] at h
      have hv : e = v := by injection h
      subst hv
      obtain ⟨hnv, u, hu⟩ := ih e hcs
      exact ⟨hnv, c :: u, by rw [hu]; rfl⟩

/-- The head surviving a `dropWhile` fails the predicate. -/
theorem dropWhile_head_false (p : Char → Bool) :
    ∀ (l : List Char) (c : Char) (cs : List Char),
      l.dropWhile p = c :: cs → p c = false := by
  intro l
  induction l with
  | nil => intro c cs h; cases h
  | cons a as ih =>
    intro c cs h
    cases hpa : p a with
    | true =>
      rw [List.dropWhile_cons_of_pos hpa] at h
      exact ih c cs h
    | false =>
      rw [List.dropWhile_cons_of_neg (by simp [hpa])] at h
      obtain rfl : a = c := by injection h
      exact hpa

/-- `dropWhile` across an append whose first part contains a
predicate failure never reaches the second part. -/
theorem dropWhile_append_of_exists (p : Char → Bool) :
    ∀ (u w : List Char), (∃ c ∈ u, p c = false) →
      (u ++ w).dropWhile p = u.dropWhile p ++ w := by
  intro u
  induction u with
  | nil => intro w h; simp at h
  | cons a as ih =>
    intro w h
    cases hpa : p a with
    | false =>
      have hna : ¬p a = true := by simp [hpa]
      rw [List.cons_append, List.dropWhile_cons_of_neg hna, List.dropWhile_cons_of_neg hna]
      rfl
    | true =>
      obtain ⟨c, hc, hpc⟩ := h
      rcases List.mem_cons.mp hc with rfl | hc'
      · rw [hpa] at hpc
        cases hpc
      · simp only [List.cons_append, List.dropWhile_cons_of_pos hpa]
        exact ih w ⟨c, hc', hpc⟩

/-- Claim C9 (amended): a filename (no slash) is recognized as a
music candidate iff it ends, case-insensitively, in a `.mp4` suffix
preceded somewhere by a non-dot character — POSIX hidden files such
as `.mp4` itself carry no extension and are not recognized. -/
theorem c9_mp4_recognition (f : String) (hs : ('/' : Char) ∉ f.data) :
    isMusicFile f = true ↔
      ∃ u v : List Char, f.data = u ++ '.' :: v ∧ v.map Char.toLower = ['m', 'p', '4'] ∧
        ∃ c ∈ u, c ≠ '.' := by
  have hb : basenameChars f.data = f.data := by
    unfold basenameChars
    rw [(afterLast_eq_none_iff '/' f.data).mpr hs]
  have hred : isMusicFile f = true ↔ (extCore f.data).map Char.toLower = ['m', 'p', '4'] := by
    rw [isMusicFile, beq_iff_eq]
    constructor
    · intro h
      have h2 := congrArg String.data h
      simpa [extension] using h2
    · intro h
      unfold extension
      rw [h]
  rw [hred]
  constructor
  · intro h
    unfold extCore at h
    rw [hb] at h
    rcases hA : afterLast '.' (f.data.dropWhile isDot) with _ | e
    · rw [hA] at h
      simp at h
    · rw [hA] at h
      obtain ⟨hdot, u₁, hu₁⟩ := afterLast_some '.' (f.data.dropWhile isDot) e hA
      rcases u₁ with _ | ⟨c₀, u₁'⟩
      · have hfalse : isDot '.' = false :=
          dropWhile_head_false isDot f.data '.' e (by simpa using hu₁)
        simp [isDot] at hfalse
      · have hc₀ : isDot c₀ = false :=
          dropWhile_head_false isDot f.data c₀ (u₁' ++ '.' :: e) (by simpa using hu₁)
        have hc₀' : c₀ ≠ '.' := by simpa [isDot] using hc₀
        refine ⟨f.data.takeWhile isDot ++ c₀ :: u₁', e, ?_, h, c₀, ?_, hc₀'⟩
        · conv_lhs => rw [← List.takeWhile_append_dropWhile isDot f.data]
          rw [hu₁]
          simp
        · exact List.mem_append_right _ (List.mem_cons_self _ _)
  · rintro ⟨u, v, hl, hmap, c₀, hc₀u, hc₀⟩
    have hvdot : ('.' : Char) ∉ v := by
      intro hv
      have hm : Char.toLower '.' ∈ v.map Char.toLower := List.mem_map_of_mem _ hv
      rw [hmap] at hm
      have hld : Char.toLower '.' = '.' := by decide
      rw [hld] at hm
      exact absurd hm (by decide)
    unfold extCore
    rw [hb, hl]
    rw [dropWhile_append_of_exists isDot u ('.' :: v) ⟨c₀, hc₀u, by simp [isDot, hc₀]⟩]
    rw [afterLast_append '.' (u.dropWhile isDot) v hvdot]
    exact hmap

/-- Claim C9, witness: `A.MP4` is recognized — the suffix is matched
case-insensitively with a non-dot character before it. -/
theorem c9_witness : isMusicFile "A.MP4" = true :=
  (c9_mp4_recognition "A.MP4" (by decide)).mpr
    ⟨['A'], ['M', 'P', '4'], by decide, by decide, 'A', by decide, by decide⟩

/-- Claim C9, counterexample to the claim as stated: `.mp4` ends with
the suffix `.mp4`, case-insensitively matched, yet it is not
recognized — `os.path.splitext` treats it as an extensionless POSIX
hidden file. -/
theorem c9_cex : specSuffixMp4 ".mp4" = true ∧ isMusicFile ".mp4" = false := by
  decide
